import Mathlib

/- Verification of the NLP-to-UML extraction engine (ThesisUMLSystem, src/app.py).
   The engine consumes a dependency parse produced by an external parser and a
   lexical ontology reporting word senses; both are modelled as parameters. -/

namespace ThesisUML

/-- A dependency-parse token as the engine reads it: surface text, lemma, coarse
POS, fine-grained tag, dependency label, syntactic children, and the governing
token's (head's) POS, lemma and children. -/
inductive Token : Type where
  | mk (text lemma_ pos tag dep : String)
      (children : List Token)
      (headPos headLemma : String)
      (headChildren : List Token) : Token

def Token.text : Token → String
  | .mk t _ _ _ _ _ _ _ _ => t

def Token.lemma_ : Token → String
  | .mk _ l _ _ _ _ _ _ _ => l

def Token.pos : Token → String
  | .mk _ _ p _ _ _ _ _ _ => p

def Token.tag : Token → String
  | .mk _ _ _ g _ _ _ _ _ => g

def Token.dep : Token → String
  | .mk _ _ _ _ d _ _ _ _ => d

def Token.children : Token → List Token
  | .mk _ _ _ _ _ c _ _ _ => c

def Token.headPos : Token → String
  | .mk _ _ _ _ _ _ hp _ _ => hp

def Token.headLemma : Token → String
  | .mk _ _ _ _ _ _ _ hl _ => hl

def Token.headChildren : Token → List Token
  | .mk _ _ _ _ _ _ _ _ hc => hc

/-- Python str.lower over ASCII text: every character lowercased. -/
def pyLower (s : String) : String :=
  String.mk (s.data.map Char.toLower)

/-- Python str.capitalize: first character uppercased, the rest lowercased. -/
def pyCapitalize (s : String) : String :=
  match s.data with
  | [] => s
  | c :: cs => String.mk (c.toUpper :: cs.map Char.toLower)

/-- One sense from the lexical ontology; only whether it is a noun sense
(pos tag member) matters to the engine. -/
structure Sense where
  pos : String
deriving DecidableEq, Repr

/-- The lexical-ontology lookup: a list of senses for a word, or an error when
the lookup raises. -/
def Ontology : Type := String → Except Unit (List Sense)

/-- ThesisUMLSystem.check_ontology: true when the lookup raises or yields no
senses; otherwise true iff some sense is a noun sense. -/
def check_ontology (ont : Ontology) (word : String) : Bool :=
  match ont word with
  | .error _ => true
  | .ok synsets =>
      if synsets.isEmpty then true
      else synsets.any (fun s => s.pos == "n")

/-- The quantifier words recognised by detect_multiplicity. -/
def quantifierWords : List String :=
  ["many", "multiple", "list", "set", "all", "collection"]

/-- The child scan of ThesisUMLSystem.detect_multiplicity: each child is tested
first for a quantifier word, then for the plural tag, returning at the first
hit; both tests are per child inside the loop. -/
def multLoop : List Token → String
  | [] => "1"
  | c :: rest =>
      if quantifierWords.contains (pyLower c.text) then "1..*"
      else if c.tag == "NNS" then "0..*"
      else multLoop rest

/-- ThesisUMLSystem.detect_multiplicity. -/
def detect_multiplicity (t : Token) : String :=
  multLoop t.children

/-- A class entry: attribute names and method names. The Python sets are
modelled as duplicate-free insertion lists. -/
structure ClassEntry where
  attributes : List String
  methods : List String
deriving DecidableEq, Repr

/-- The class registry (Python dict, insertion ordered). -/
abbrev Registry : Type := List (String × ClassEntry)

/-- Python membership test: name in self.classes. -/
def Registry.containsName (r : Registry) (n : String) : Bool :=
  r.any (fun p => p.1 == n)

/-- self.classes[c] = dict of empty sets, guarded by the absence check. -/
def Registry.register (r : Registry) (n : String) : Registry :=
  if r.containsName n then r else r ++ [(n, ⟨[], []⟩)]

/-- Set insertion: add the element when not already present. -/
def insertSet (l : List String) (x : String) : List String :=
  if l.contains x then l else l ++ [x]

/-- self.classes[n]["attributes"].add(a). -/
def Registry.addAttribute (r : Registry) (n a : String) : Registry :=
  r.map (fun p =>
    if p.1 == n then (p.1, { p.2 with attributes := insertSet p.2.attributes a })
    else p)

/-- self.classes[n]["methods"].add(m). -/
def Registry.addMethod (r : Registry) (n m : String) : Registry :=
  r.map (fun p =>
    if p.1 == n then (p.1, { p.2 with methods := insertSet p.2.methods m })
    else p)

/-- A relationship 4-tuple (source, kind, target, label). -/
structure Rel where
  src : String
  kind : String
  tgt : String
  label : String
deriving DecidableEq, Repr

/-- The engine state mutated by the extraction pass. -/
structure EngState where
  classes : Registry
  relationships : List Rel
deriving DecidableEq, Repr

/-- The non-substantive verbs filtered out of Rule 4. -/
def ignored_verbs : List String :=
  ["be", "have", "include", "consist", "contain", "involve"]

/-- Children of a token carrying a given dependency label. -/
def childrenWithDep (t : Token) (d : String) : List Token :=
  t.children.filter (fun c => c.dep == d)

/-- Rule 1 (class identification): nouns and proper nouns in core argument
positions, minus the denylist, filtered through the ontology, registered under
the capitalized lemma. -/
def rule1 (ont : Ontology) (cls : Registry) (t : Token) : Registry :=
  if (t.pos == "NOUN" || t.pos == "PROPN")
      && (t.dep == "nsubj" || t.dep == "dobj" || t.dep == "pobj"
          || t.dep == "nsubjpass") then
    let lem := pyLower t.lemma_
    if !(lem == "user" || lem == "data") then
      if check_ontology ont lem then
        cls.register (pyCapitalize t.lemma_)
      else cls
    else cls
  else cls

/-- Rule 2 body (generalization): emitted only when both endpoints are already
registered; never registers a class. -/
def rule2 (st : EngState) (t : Token) : EngState :=
  let subj := childrenWithDep t "nsubj"
  let attr := childrenWithDep t "attr"
  match subj.head?, attr.head? with
  | some s0, some a0 =>
      let c := pyCapitalize s0.lemma_
      let p := pyCapitalize a0.lemma_
      if st.classes.containsName c && st.classes.containsName p then
        { st with relationships := st.relationships ++ [⟨c, "Generalization", p, ""⟩] }
      else st
  | _, _ => st

/-- Rule 3 body (composition / attribute demotion). -/
def rule3 (st : EngState) (t : Token) : EngState :=
  let owners := childrenWithDep t "nsubj"
  let objs := childrenWithDep t "dobj"
  match owners.head?, objs.head? with
  | some ow, some ob =>
      let o := pyCapitalize ow.lemma_
      let mult := detect_multiplicity ob
      let mlabel := if mult != "1" then mult else ""
      if st.classes.containsName o then
        let objC := pyCapitalize ob.lemma_
        if st.classes.containsName objC then
          { st with relationships := st.relationships ++ [⟨o, "Composition", objC, mlabel⟩] }
        else
          { st with classes := st.classes.addAttribute o ob.text }
      else st
  | _, _ => st

/-- Rule 4 body (association from an active verb). -/
def rule4 (st : EngState) (t : Token) : EngState :=
  let subjs := childrenWithDep t "nsubj"
  match subjs.head? with
  | some sb =>
      let s := pyCapitalize sb.lemma_
      if st.classes.containsName s then
        let st1 : EngState := { st with classes := st.classes.addMethod s t.lemma_ }
        let dobjs := childrenWithDep t "dobj"
        match dobjs.head? with
        | some db =>
            let o := pyCapitalize db.lemma_
            if st1.classes.containsName o && s != o then
              { st1 with relationships := st1.relationships ++ [⟨s, "Association", o, t.lemma_⟩] }
            else st1
        | none => st1
      else st
  | none => st

/-- The if/elif chain over Rules 2, 3 and 4 in ThesisUMLSystem.process. -/
def rules234 (st : EngState) (t : Token) : EngState :=
  if t.lemma_ == "be" then rule2 st t
  else if t.lemma_ == "have" || t.lemma_ == "contain" || t.lemma_ == "include"
      || t.lemma_ == "consist" then rule3 st t
  else if t.pos == "VERB" && !ignored_verbs.contains t.lemma_ then rule4 st t
  else st

/-- Rule 5 (passive voice): fires on every token independently of Rules 1-4;
force-registers both endpoints. -/
def rule5 (st : EngState) (t : Token) : EngState :=
  if t.dep == "agent" && t.headPos == "VERB" then
    let actual_agent := childrenWithDep t "pobj"
    let passive_subj := t.headChildren.filter (fun c => c.dep == "nsubjpass")
    match actual_agent.head?, passive_subj.head? with
    | some ag, some ps =>
        let act := pyCapitalize ag.lemma_
        let rcv := pyCapitalize ps.lemma_
        let cls3 := ((st.classes.register act).register rcv).addMethod act t.headLemma
        { classes := cls3,
          relationships := st.relationships ++ [⟨act, "Association", rcv, t.headLemma⟩] }
    | _, _ => st
  else st

/-- The per-token body of the extraction loop: Rule 1, then the Rule 2/3/4
chain, then Rule 5, each seeing the updates of the previous. -/
def applyToken (ont : Ontology) (st : EngState) (t : Token) : EngState :=
  rule5 (rules234 { st with classes := rule1 ont st.classes t } t) t

/-- The whole extraction pass over a parsed document. -/
def runTokens (ont : Ontology) (st : EngState) (doc : List Token) : EngState :=
  doc.foldl (applyToken ont) st

/-- One emitted diagram edge with its graphviz styling attributes. -/
structure Edge where
  src : String
  tgt : String
  arrowhead : String
  arrowtail : Option String
  dir : Option String
  label : String
deriving DecidableEq, Repr

/-- The structured diagram description produced by the emitter: record nodes
(name, label) and styled edges. -/
structure Digraph where
  nodes : List (String × String)
  edges : List Edge
deriving DecidableEq, Repr

/-- The record-shape node label of ThesisUMLSystem.generate_graphviz. -/
def nodeLabel (class_name : String) (details : ClassEntry) : String :=
  let attrs :=
    if details.attributes.isEmpty then ""
    else String.intercalate "\\l" (details.attributes.map (fun a => "- " ++ a)) ++ "\\l"
  let methods :=
    if details.methods.isEmpty then ""
    else String.intercalate "\\l" (details.methods.map (fun m => "+ " ++ m ++ "()")) ++ "\\l"
  "\x7b " ++ class_name ++ " | " ++ attrs ++ " | " ++ methods ++ " \x7d"

/-- ThesisUMLSystem.generate_graphviz: one node per registry entry, then one
edge per element of set(self.relationships), styled by relationship kind. -/
def generate_graphviz (classes : Registry) (relationships : List Rel) : Digraph :=
  let nodes := classes.map (fun p => (p.1, nodeLabel p.1 p.2))
  let unique_rels := relationships.dedup
  let edges := unique_rels.map (fun r =>
    if r.kind == "Generalization" then
      ⟨r.src, r.tgt, "onormal", none, none, ""⟩
    else if r.kind == "Composition" then
      ⟨r.src, r.tgt, "none", some "diamond", some "both", r.label⟩
    else
      ⟨r.src, r.tgt, "vee", none, none, r.label⟩)
  ⟨nodes, edges⟩

/-- The external parser handle: text to parsed token sequence. -/
def ParserModel : Type := String → List Token

/-- The engine object: the parser handle (None when loading failed) and the
mutable classes / relationships fields. -/
structure ThesisUMLSystem where
  nlp : Option ParserModel
  classes : Registry
  relationships : List Rel

/-- ThesisUMLSystem.process: returns None at once when no parser model is
held; otherwise resets both state fields, runs the extraction pass over the
parse of the text, and returns the emitted diagram next to the updated
object state. -/
def ThesisUMLSystem.process (ont : Ontology) (sys : ThesisUMLSystem)
    (text : String) : Option Digraph × ThesisUMLSystem :=
  match sys.nlp with
  | none => (none, sys)
  | some parserModel =>
      let doc := parserModel text
      let st := runTokens ont ⟨[], []⟩ doc
      (some (generate_graphviz st.classes st.relationships),
       { sys with classes := st.classes, relationships := st.relationships })

/-- The styling map applied to one deduplicated relationship (used to state
properties of generate_graphviz). -/
def styleEdge (r : Rel) : Edge :=
  if r.kind == "Generalization" then
    ⟨r.src, r.tgt, "onormal", none, none, ""⟩
  else if r.kind == "Composition" then
    ⟨r.src, r.tgt, "none", some "diamond", some "both", r.label⟩
  else
    ⟨r.src, r.tgt, "vee", none, none, r.label⟩

/-- Every relationship endpoint currently names a registered class. -/
def RelEndpointsRegistered (st : EngState) : Prop :=
  ∀ r ∈ st.relationships,
    st.classes.containsName r.src = true ∧ st.classes.containsName r.tgt = true

/-- A token with no interesting head information. -/
def mkTok (text lem pos tag dep : String) (ch : List Token) : Token :=
  Token.mk text lem pos tag dep ch "" "" []

/-- An ontology whose every lookup raises. -/
def errOntology : Ontology := fun _ => Except.error ()

def c1plural : Token := mkTok "accounts" "account" "NOUN" "NNS" "conj" []

def c1quant : Token := mkTok "many" "many" "ADJ" "JJ" "amod" []

def c1det : Token := mkTok "the" "the" "DET" "DT" "det" []

/-- A token whose plural-tagged child precedes its quantifier-word child. -/
def c1tokCex : Token := mkTok "accounts" "account" "NOUN" "NNS" "dobj" [c1plural, c1quant]

/-- A token whose quantifier-word child is preceded only by a neutral child. -/
def c1tokWit : Token := mkTok "accounts" "account" "NOUN" "NNS" "dobj" [c1det, c1quant]

def c2ow : Token := mkTok "Car" "car" "PROPN" "NNP" "nsubj" []

def c2ob : Token := mkTok "engine" "engine" "NOUN" "NN" "dobj" []

def c2tok : Token := mkTok "has" "have" "VERB" "VBZ" "ROOT" [c2ow, c2ob]

def c2st : EngState := ⟨[("Car", ⟨[], []⟩)], []⟩

def c3ag : Token := mkTok "Administrator" "administrator" "NOUN" "NN" "pobj" []

def c3ps : Token := mkTok "Account" "account" "NOUN" "NN" "nsubjpass" []

/-- The agent token of a passive-voice sentence, with its governing verb. -/
def c3tok : Token := Token.mk "by" "by" "ADP" "IN" "agent" [c3ag] "VERB" "manage" [c3ps]

def c4sub1 : Token := mkTok "alpha" "alpha" "NOUN" "NN" "nsubj" []

def c4sub2 : Token := mkTok "beta" "b" "NOUN" "NN" "nsubj" []

/-- A verb token with two nsubj children; only the second names a registered
class. -/
def c4tok : Token := mkTok "manages" "manage" "VERB" "VBZ" "ROOT" [c4sub1, c4sub2]

def c4st : EngState := ⟨[("B", ⟨[], []⟩)], []⟩

def c4wsub : Token := mkTok "admin" "admin" "NOUN" "NN" "nsubj" []

def c4wobj : Token := mkTok "system" "system" "NOUN" "NN" "dobj" []

def c4wtok : Token := mkTok "manages" "manage" "VERB" "VBZ" "ROOT" [c4wsub, c4wobj]

def c4wst : EngState := ⟨[("Admin", ⟨[], []⟩), ("System", ⟨[], []⟩)], []⟩

def c5subj : Token := mkTok "Dog" "dog" "NOUN" "NN" "nsubj" []

def c5attr : Token := mkTok "Animal" "animal" "NOUN" "NN" "attr" []

def c5tok : Token := mkTok "is" "be" "AUX" "VBZ" "ROOT" [c5subj, c5attr]

def c7ag : Token := mkTok "Administrator" "administrator" "NOUN" "NN" "pobj" []

def c7ps : Token := mkTok "Account" "account" "NOUN" "NN" "nsubjpass" []

def c7tok : Token := Token.mk "by" "by" "ADP" "IN" "agent" [c7ag] "VERB" "manage" [c7ps]

def c7p : ParserModel := fun _ => [c7tok]

def c9tok : Token := mkTok "dog" "dog" "NOUN" "NN" "nsubj" []

def c9p : ParserModel := fun _ => [c9tok]

theorem register_containsName_self (r : Registry) (n : String) :
    (r.register n).containsName n = true := by
  unfold Registry.register
  split
  · assumption
  · simp [Registry.containsName, List.any_append]

theorem register_containsName_mono {r : Registry} {m : String} (n : String)
    (h : r.containsName m = true) : (r.register n).containsName m = true := by
  unfold Registry.register
  split
  · exact h
  · simp [Registry.containsName, List.any_append]
    left
    simpa [Registry.containsName] using h

theorem addAttribute_containsName (r : Registry) (n a m : String) :
    (r.addAttribute n a).containsName m = r.containsName m := by
  unfold Registry.addAttribute Registry.containsName
  induction r with
  | nil => rfl
  | cons p rest ih =>
      simp only [List.map_cons, List.any_cons, ih]
      congr 1
      split <;> simp

theorem addMethod_containsName (r : Registry) (n mt m : String) :
    (r.addMethod n mt).containsName m = r.containsName m := by
  unfold Registry.addMethod Registry.containsName
  induction r with
  | nil => rfl
  | cons p rest ih =>
      simp only [List.map_cons, List.any_cons, ih]
      congr 1
      split <;> simp

theorem rule1_containsName_mono {cls : Registry} {m : String}
    (ont : Ontology) (t : Token) (h : cls.containsName m = true) :
    (rule1 ont cls t).containsName m = true := by
  simp only [rule1]
  split
  · split
    · split
      · exact register_containsName_mono _ h
      · exact h
    · exact h
  · exact h

theorem rule2_classes (st : EngState) (t : Token) :
    (rule2 st t).classes = st.classes := by
  unfold rule2
  cases h1 : (childrenWithDep t "nsubj").head? <;>
    cases h2 : (childrenWithDep t "attr").head? <;>
      simp only [h1, h2]
  split <;> rfl

theorem rule3_containsName (st : EngState) (t : Token) (m : String) :
    (rule3 st t).classes.containsName m = st.classes.containsName m := by
  unfold rule3
  cases h1 : (childrenWithDep t "nsubj").head? <;>
    cases h2 : (childrenWithDep t "dobj").head? <;>
      simp only [h1, h2]
  split
  · split <;> simp [addAttribute_containsName]
  · rfl

theorem rule4_containsName (st : EngState) (t : Token) (m : String) :
    (rule4 st t).classes.containsName m = st.classes.containsName m := by
  unfold rule4
  cases h1 : (childrenWithDep t "nsubj").head? <;> simp only [h1]
  split
  · cases h2 : (childrenWithDep t "dobj").head? <;> simp only [h2]
    · simp [addMethod_containsName]
    · split <;> simp [addMethod_containsName]
  · rfl

theorem rules234_containsName (st : EngState) (t : Token) (m : String) :
    (rules234 st t).classes.containsName m = st.classes.containsName m := by
  unfold rules234
  split
  · rw [rule2_classes]
  · split
    · exact rule3_containsName st t m
    · split
      · exact rule4_containsName st t m
      · rfl

theorem rule5_containsName_mono {st : EngState} {m : String} (t : Token)
    (h : st.classes.containsName m = true) :
    (rule5 st t).classes.containsName m = true := by
  unfold rule5
  split
  · cases h1 : (childrenWithDep t "pobj").head? <;>
      cases h2 : (t.headChildren.filter (fun c => c.dep == "nsubjpass")).head? <;>
        simp only [h1, h2]
    · exact h
    · exact h
    · exact h
    · simp only [addMethod_containsName]
      exact register_containsName_mono _ (register_containsName_mono _ h)
  · exact h

theorem applyToken_containsName_mono {st : EngState} {m : String}
    (ont : Ontology) (t : Token) (h : st.classes.containsName m = true) :
    (applyToken ont st t).classes.containsName m = true := by
  unfold applyToken
  apply rule5_containsName_mono
  rw [rules234_containsName]
  exact rule1_containsName_mono ont t h

theorem runTokens_containsName_mono {st : EngState} {m : String}
    (ont : Ontology) (doc : List Token) (h : st.classes.containsName m = true) :
    (runTokens ont st doc).classes.containsName m = true := by
  induction doc generalizing st with
  | nil => exact h
  | cons t rest ih =>
      exact ih (applyToken_containsName_mono ont t h)

theorem rule2_rels (st : EngState) (t : Token) :
    ∀ r ∈ (rule2 st t).relationships, r ∈ st.relationships ∨
      (st.classes.containsName r.src = true ∧ st.classes.containsName r.tgt = true) := by
  unfold rule2
  cases h1 : (childrenWithDep t "nsubj").head? <;>
    cases h2 : (childrenWithDep t "attr").head? <;> simp only [h1, h2]
  · exact fun r hr => Or.inl hr
  · exact fun r hr => Or.inl hr
  · exact fun r hr => Or.inl hr
  · split
    · intro r hr
      rw [List.mem_append] at hr
      rcases hr with hr | hr
      · exact Or.inl hr
      · simp only [List.mem_singleton] at hr
        subst hr
        rename_i hcond
        simp only [Bool.and_eq_true] at hcond
        exact Or.inr ⟨hcond.1, hcond.2⟩
    · exact fun r hr => Or.inl hr

theorem rule3_rels (st : EngState) (t : Token) :
    ∀ r ∈ (rule3 st t).relationships, r ∈ st.relationships ∨
      (st.classes.containsName r.src = true ∧ st.classes.containsName r.tgt = true) := by
  unfold rule3
  cases h1 : (childrenWithDep t "nsubj").head? <;>
    cases h2 : (childrenWithDep t "dobj").head? <;> simp only [h1, h2]
  · exact fun r hr => Or.inl hr
  · exact fun r hr => Or.inl hr
  · exact fun r hr => Or.inl hr
  · split
    · rename_i how
      split
      · rename_i hob
        intro r hr
        rw [List.mem_append] at hr
        rcases hr with hr | hr
        · exact Or.inl hr
        · simp only [List.mem_singleton] at hr
          subst hr
          exact Or.inr ⟨how, hob⟩
      · exact fun r hr => Or.inl hr
    · exact fun r hr => Or.inl hr

theorem rule4_rels (st : EngState) (t : Token) :
    ∀ r ∈ (rule4 st t).relationships, r ∈ st.relationships ∨
      (st.classes.containsName r.src = true ∧ st.classes.containsName r.tgt = true) := by
  unfold rule4
  cases h1 : (childrenWithDep t "nsubj").head? <;> simp only [h1]
  · exact fun r hr => Or.inl hr
  · split
    · rename_i hsb
      cases h2 : (childrenWithDep t "dobj").head? <;> simp only [h2]
      · exact fun r hr => Or.inl hr
      · split
        · rename_i hcond
          simp only [Bool.and_eq_true, addMethod_containsName] at hcond
          intro r hr
          rw [List.mem_append] at hr
          rcases hr with hr | hr
          · exact Or.inl hr
          · simp only [List.mem_singleton] at hr
            subst hr
            exact Or.inr ⟨hsb, hcond.1⟩
        · exact fun r hr => Or.inl hr
    · exact fun r hr => Or.inl hr

theorem rules234_rels (st : EngState) (t : Token) :
    ∀ r ∈ (rules234 st t).relationships, r ∈ st.relationships ∨
      (st.classes.containsName r.src = true ∧ st.classes.containsName r.tgt = true) := by
  unfold rules234
  split
  · exact rule2_rels st t
  · split
    · exact rule3_rels st t
    · split
      · exact rule4_rels st t
      · exact fun r hr => Or.inl hr

theorem rule5_rels (st : EngState) (t : Token) :
    ∀ r ∈ (rule5 st t).relationships,
      (r ∈ st.relationships ∧
        ∀ n, st.classes.containsName n = true →
          (rule5 st t).classes.containsName n = true) ∨
      ((rule5 st t).classes.containsName r.src = true ∧
        (rule5 st t).classes.containsName r.tgt = true) := by
  unfold rule5
  split
  · cases h1 : (childrenWithDep t "pobj").head? <;>
      cases h2 : (t.headChildren.filter (fun c => c.dep == "nsubjpass")).head? <;>
        simp only [h1, h2]
    · exact fun r hr => Or.inl ⟨hr, fun n hn => hn⟩
    · exact fun r hr => Or.inl ⟨hr, fun n hn => hn⟩
    · exact fun r hr => Or.inl ⟨hr, fun n hn => hn⟩
    · intro r hr
      rw [List.mem_append] at hr
      rcases hr with hr | hr
      · refine Or.inl ⟨hr, fun n hn => ?_⟩
        simp only [addMethod_containsName]
        exact register_containsName_mono _ (register_containsName_mono _ hn)
      · simp only [List.mem_singleton] at hr
        subst hr
        refine Or.inr ⟨?_, ?_⟩
        · simp only [addMethod_containsName]
          exact register_containsName_mono _ (register_containsName_self _ _)
        · simp only [addMethod_containsName]
          exact register_containsName_self _ _
  · exact fun r hr => Or.inl ⟨hr, fun n hn => hn⟩

theorem applyToken_inv (ont : Ontology) (t : Token) {st : EngState}
    (h : RelEndpointsRegistered st) :
    RelEndpointsRegistered (applyToken ont st t) := by
  unfold applyToken
  intro r hr
  set st1 : EngState := { st with classes := rule1 ont st.classes t } with hst1
  have hinv1 : RelEndpointsRegistered st1 := by
    intro q hq
    have := h q hq
    exact ⟨rule1_containsName_mono ont t this.1, rule1_containsName_mono ont t this.2⟩
  have hinv2 : RelEndpointsRegistered (rules234 st1 t) := by
    intro q hq
    rcases rules234_rels st1 t q hq with hq' | hq'
    · have := hinv1 q hq'
      rw [rules234_containsName, rules234_containsName]
      exact this
    · rw [rules234_containsName, rules234_containsName]
      exact hq'
  rcases rule5_rels (rules234 st1 t) t r hr with ⟨hmem, hmono⟩ | hend
  · have := hinv2 r hmem
    exact ⟨hmono _ this.1, hmono _ this.2⟩
  · exact hend

theorem runTokens_inv (ont : Ontology) (doc : List Token) {st : EngState}
    (h : RelEndpointsRegistered st) :
    RelEndpointsRegistered (runTokens ont st doc) := by
  induction doc generalizing st with
  | nil => exact h
  | cons t rest ih => exact ih (applyToken_inv ont t h)

/-- C1 counterexample: a token has both a quantifier-word child ("many") and a
plural-tagged (NNS) child, but because the NNS child comes first,
detect_multiplicity returns "0..*", not "1..*": the quantifier-word check does
not have priority across the whole child set. -/
theorem C1_counterexample :
    (∃ c ∈ c1tokCex.children, quantifierWords.contains (pyLower c.text) = true) ∧
    (∃ c ∈ c1tokCex.children, c.tag = "NNS") ∧
    detect_multiplicity c1tokCex = "0..*" ∧
    ¬ detect_multiplicity c1tokCex = "1..*" := by
  decide

/-- C1 (amended): the multiplicity scan is per child, in child order: the
token's multiplicity is "1..*" when some child is a quantifier word and every
child before it is neither NNS-tagged nor itself a quantifier word that would
have already returned; equivalently, a quantifier-word child wins only if no
plural-tagged non-quantifier child precedes it. -/
theorem C1_amended (t : Token) (pre post : List Token) (c : Token)
    (hsplit : t.children = pre ++ c :: post)
    (hq : quantifierWords.contains (pyLower c.text) = true)
    (hpre : ∀ d ∈ pre, quantifierWords.contains (pyLower d.text) = false →
      ¬ d.tag = "NNS") :
    detect_multiplicity t = "1..*" := by
  unfold detect_multiplicity
  rw [hsplit]
  clear hsplit
  induction pre with
  | nil =>
      show multLoop (c :: post) = "1..*"
      unfold multLoop
      rw [hq]
      simp
  | cons d rest ih =>
      rw [List.cons_append]
      show multLoop (d :: (rest ++ c :: post)) = "1..*"
      unfold multLoop
      by_cases hd : quantifierWords.contains (pyLower d.text) = true
      · rw [hd]
        simp
      · have hd' : quantifierWords.contains (pyLower d.text) = false :=
          Bool.eq_false_iff.mpr hd
        have hnns : ¬ d.tag = "NNS" := hpre d (List.mem_cons_self d rest) hd'
        have hnns' : (d.tag == "NNS") = false := by
          simpa using hnns
        rw [hd', hnns']
        simp only [Bool.false_eq_true, if_false]
        exact ih (fun e he hf => hpre e (List.mem_cons_of_mem d he) hf)

/-- C1 witness: the amended claim at a concrete token whose quantifier child
is preceded only by a determiner child. -/
theorem C1_witness : detect_multiplicity c1tokWit = "1..*" :=
  C1_amended c1tokWit [c1det] [] c1quant rfl (by decide) (by decide)

/-- C2: on a token triggering Rule 3 with a first nsubj child ow and first
dobj child ob, when the owner's capitalized lemma is registered: if the
object's capitalized lemma is also registered, the Composition relationship
is appended with the multiplicity label (empty when the multiplicity is "1")
and no attribute is added; otherwise the object token's raw surface text is
added to the owner's attribute set and no relationship is appended. -/
theorem C2_rule3_demotion (st : EngState) (t ow ob : Token)
    (hl : t.lemma_ = "have" ∨ t.lemma_ = "contain" ∨ t.lemma_ = "include"
      ∨ t.lemma_ = "consist")
    (how : (childrenWithDep t "nsubj").head? = some ow)
    (hob : (childrenWithDep t "dobj").head? = some ob)
    (hreg : st.classes.containsName (pyCapitalize ow.lemma_) = true) :
    (st.classes.containsName (pyCapitalize ob.lemma_) = true →
      rules234 st t = { st with relationships := st.relationships ++
        [⟨pyCapitalize ow.lemma_, "Composition", pyCapitalize ob.lemma_,
          if detect_multiplicity ob != "1" then detect_multiplicity ob else ""⟩] }) ∧
    (st.classes.containsName (pyCapitalize ob.lemma_) = false →
      rules234 st t =
        { st with classes := st.classes.addAttribute (pyCapitalize ow.lemma_) ob.text }) := by
  have hbe : (t.lemma_ == "be") = false := by
    rcases hl with h | h | h | h <;> simp [h]
  have h3 : (t.lemma_ == "have" || t.lemma_ == "contain" || t.lemma_ == "include"
      || t.lemma_ == "consist") = true := by
    rcases hl with h | h | h | h <;> simp [h]
  unfold rules234
  rw [hbe, h3]
  simp only [Bool.false_eq_true, if_false, if_true]
  unfold rule3
  simp only [how, hob]
  constructor
  · intro hobj
    rw [if_pos hreg, if_pos hobj]
  · intro hobj
    rw [if_pos hreg, if_neg (by simp [hobj])]

/-- C2 witness: the demotion branch at a concrete state and token ("The Car
has an engine" with Engine unregistered): Car gains attribute "engine". -/
theorem C2_witness :
    rules234 c2st c2tok = ⟨[("Car", ⟨["engine"], []⟩)], []⟩ := by
  have h := (C2_rule3_demotion c2st c2tok c2ow c2ob (Or.inl rfl) rfl rfl
    (by decide)).2 (by decide)
  rw [h]
  decide

/-- C3: on any token with dependency label "agent" whose head is a VERB, with
a first pobj child (actor) and a first nsubjpass child of the head (patient),
the per-token step ends with Rule 5 applied on top of whatever Rules 1-4
produced: both capitalized lemmas are registered (register is idempotent and
creates an entry with empty sets only when absent), the head verb's lemma is
added to the actor's methods, and the Association is appended. -/
theorem C3_rule5_passive (ont : Ontology) (st : EngState) (t ag ps : Token)
    (hdep : t.dep = "agent") (hhp : t.headPos = "VERB")
    (hag : (childrenWithDep t "pobj").head? = some ag)
    (hps : (t.headChildren.filter (fun c => c.dep == "nsubjpass")).head? = some ps) :
    applyToken ont st t =
      { classes := (((rules234 { st with classes := rule1 ont st.classes t } t).classes.register
            (pyCapitalize ag.lemma_)).register (pyCapitalize ps.lemma_)).addMethod
            (pyCapitalize ag.lemma_) t.headLemma,
        relationships :=
          (rules234 { st with classes := rule1 ont st.classes t } t).relationships ++
            [⟨pyCapitalize ag.lemma_, "Association", pyCapitalize ps.lemma_, t.headLemma⟩] } ∧
    (∀ (r : Registry) (n : String),
      (r.containsName n = true → r.register n = r) ∧
      (r.containsName n = false → r.register n = r ++ [(n, ⟨[], []⟩)])) := by
  constructor
  · unfold applyToken
    unfold rule5
    rw [hdep, hhp]
    simp only [hag, hps]
    rfl
  · intro r n
    constructor
    · intro h
      unfold Registry.register
      rw [if_pos h]
    · intro h
      unfold Registry.register
      rw [if_neg (by simp [h])]

/-- C3 witness: the passive-voice rule at a concrete token ("The Account is
managed by the Administrator") from the empty state: both classes are created,
Administrator gains method "manage", and the Association is appended. -/
theorem C3_witness :
    applyToken errOntology ⟨[], []⟩ c3tok =
      ⟨[("Administrator", ⟨[], ["manage"]⟩), ("Account", ⟨[], []⟩)],
        [⟨"Administrator", "Association", "Account", "manage"⟩]⟩ := by
  have h := (C3_rule5_passive errOntology ⟨[], []⟩ c3tok c3ag c3ps rfl rfl rfl rfl).1
  rw [h]
  decide

/-- C4 counterexample: a Rule 4 token with two nsubj children where only the
second child's capitalized lemma ("B") is registered: the code inspects only
the first nsubj child, so nothing happens — no method is added to any class,
refuting the claim's "if any nsubj child's capitalized lemma names a
registered class" reading. -/
theorem C4_counterexample :
    (c4tok.pos = "VERB" ∧ ignored_verbs.contains c4tok.lemma_ = false ∧
      ∃ c ∈ childrenWithDep c4tok "nsubj",
        c4st.classes.containsName (pyCapitalize c.lemma_) = true) ∧
    applyToken errOntology c4st c4tok = c4st ∧
    (∀ p ∈ (applyToken errOntology c4st c4tok).classes,
      ¬ c4tok.lemma_ ∈ p.2.methods) := by
  decide

/-- C4 (amended): Rule 4 keys off the FIRST nsubj child only: when the first
nsubj child's capitalized lemma names a registered class, the verb's lemma is
added as a method on that class, and when additionally the FIRST dobj child's
capitalized lemma is a registered class different from the subject class, the
Association is appended; other nsubj and dobj children are never consulted. -/
theorem C4_amended (st : EngState) (t sb : Token)
    (hpos : t.pos = "VERB")
    (hig : ignored_verbs.contains t.lemma_ = false)
    (hsb : (childrenWithDep t "nsubj").head? = some sb)
    (hreg : st.classes.containsName (pyCapitalize sb.lemma_) = true) :
    rules234 st t =
      (match (childrenWithDep t "dobj").head? with
       | some db =>
           if (st.classes.addMethod (pyCapitalize sb.lemma_) t.lemma_).containsName
                 (pyCapitalize db.lemma_)
               && pyCapitalize sb.lemma_ != pyCapitalize db.lemma_ then
             { classes := st.classes.addMethod (pyCapitalize sb.lemma_) t.lemma_,
               relationships := st.relationships ++
                 [⟨pyCapitalize sb.lemma_, "Association", pyCapitalize db.lemma_, t.lemma_⟩] }
           else
             { classes := st.classes.addMethod (pyCapitalize sb.lemma_) t.lemma_,
               relationships := st.relationships }
       | none =>
           { classes := st.classes.addMethod (pyCapitalize sb.lemma_) t.lemma_,
             relationships := st.relationships }) := by
  have hig' : ¬ (t.lemma_ = "be" ∨ t.lemma_ = "have" ∨ t.lemma_ = "include"
      ∨ t.lemma_ = "consist" ∨ t.lemma_ = "contain" ∨ t.lemma_ = "involve") := by
    simpa [ignored_verbs] using hig
  push_neg at hig'
  obtain ⟨h1, h2, h3, h4, h5, h6⟩ := hig'
  have hbe : (t.lemma_ == "be") = false := by simp [h1]
  have hchain : (t.lemma_ == "have" || t.lemma_ == "contain" || t.lemma_ == "include"
      || t.lemma_ == "consist") = true → False := by
    intro h
    simp only [Bool.or_eq_true, beq_iff_eq] at h
    rcases h with ((h | h) | h) | h
    exacts [h2 h, h5 h, h3 h, h4 h]
  have hverb : (t.pos == "VERB" && !ignored_verbs.contains t.lemma_) = true := by
    simp [hpos]
    simpa using hig
  unfold rules234
  rw [hbe]
  simp only [Bool.false_eq_true, if_false]
  rw [if_neg (fun h => hchain h), if_pos hverb]
  unfold rule4
  simp only [hsb]
  rw [if_pos hreg]

/-- C4 witness: the amended claim at a concrete state with classes Admin and
System and the verb token of "The admin manages the system": Admin gains
method "manage" and the Association (Admin, System, manage) is appended. -/
theorem C4_witness :
    rules234 c4wst c4wtok =
      ⟨[("Admin", ⟨[], ["manage"]⟩), ("System", ⟨[], []⟩)],
        [⟨"Admin", "Association", "System", "manage"⟩]⟩ := by
  have h := C4_amended c4wst c4wtok c4wsub rfl (by decide) rfl (by decide)
  rw [h]
  decide

/-- C5: on any token with lemma "be", the Rule 2/3/4 chain never changes the
class registry, and it appends the Generalization (subject-class,
predicate-class) exactly when the token has a first nsubj child and a first
attr child whose capitalized lemmas are BOTH registered at that moment;
otherwise the relationship collection is unchanged. -/
theorem C5_rule2_generalization (st : EngState) (t : Token)
    (hbe : t.lemma_ = "be") :
    (rules234 st t).classes = st.classes ∧
    (rules234 st t).relationships =
      (match (childrenWithDep t "nsubj").head?, (childrenWithDep t "attr").head? with
       | some s0, some a0 =>
           if st.classes.containsName (pyCapitalize s0.lemma_)
               && st.classes.containsName (pyCapitalize a0.lemma_) then
             st.relationships ++
               [⟨pyCapitalize s0.lemma_, "Generalization", pyCapitalize a0.lemma_, ""⟩]
           else st.relationships
       | _, _ => st.relationships) := by
  have hbe' : (t.lemma_ == "be") = true := by simp [hbe]
  unfold rules234
  rw [hbe']
  simp only [if_true]
  refine ⟨rule2_classes st t, ?_⟩
  unfold rule2
  cases h1 : (childrenWithDep t "nsubj").head? <;>
    cases h2 : (childrenWithDep t "attr").head? <;> simp only [h1, h2]
  split <;> rfl

/-- C5 witness: "The Dog is an Animal" with neither endpoint registered, from
the empty state: no Generalization relationship is emitted and no class is
registered. -/
theorem C5_witness :
    (rules234 ⟨[], []⟩ c5tok).classes = ([] : Registry) ∧
    (rules234 ⟨[], []⟩ c5tok).relationships = ([] : List Rel) := by
  have h := C5_rule2_generalization ⟨[], []⟩ c5tok rfl
  refine ⟨h.1, ?_⟩
  rw [h.2]
  decide

/-- C6: check_ontology is fail-open: it returns true when the sense lookup
raises and when the inventory reports no senses; it returns false exactly
when the lookup succeeds with a nonempty sense list none of whose senses is a
noun sense. -/
theorem C6_check_ontology (ont : Ontology) (word : String) :
    (∀ e : Unit, ont word = Except.error e → check_ontology ont word = true) ∧
    (ont word = Except.ok [] → check_ontology ont word = true) ∧
    (check_ontology ont word = false ↔
      ∃ ss : List Sense, ont word = Except.ok ss ∧ ss ≠ [] ∧
        ∀ s ∈ ss, ¬ s.pos = "n") := by
  refine ⟨?_, ?_, ?_⟩
  · intro e h
    unfold check_ontology
    rw [h]
  · intro h
    unfold check_ontology
    rw [h]
    rfl
  · unfold check_ontology
    cases h : ont word with
    | error e => simp [h]
    | ok ss =>
        by_cases hss : ss.isEmpty
        · have : ss = [] := List.isEmpty_iff.mp hss
          subst this
          simp [h]
        · have hne : ss ≠ [] := fun heq => hss (by simp [heq])
          dsimp only
          rw [if_neg (by simpa using hss)]
          simp only [h, Except.ok.injEq]
          constructor
          · intro hany
            refine ⟨ss, rfl, hne, fun s hs => ?_⟩
            have h2 := List.any_eq_false.mp hany s hs
            simpa using h2
          · rintro ⟨ss', rfl, hne', hall⟩
            apply List.any_eq_false.mpr
            intro s hs
            simpa using hall s hs

/-- C6 witness: the fail-open case at a concrete always-raising ontology. -/
theorem C6_witness : check_ontology errOntology "system" = true :=
  (C6_check_ontology errOntology "system").1 () rfl

/-- C7: after process runs with a parser model present, every relationship in
the resulting state has both its source and target names registered in the
resulting class registry. -/
theorem C7_endpoints (ont : Ontology) (p : ParserModel) (c0 : Registry)
    (r0 : List Rel) (text : String) :
    ∀ r ∈ (ThesisUMLSystem.process ont ⟨some p, c0, r0⟩ text).2.relationships,
      (ThesisUMLSystem.process ont ⟨some p, c0, r0⟩ text).2.classes.containsName r.src = true ∧
      (ThesisUMLSystem.process ont ⟨some p, c0, r0⟩ text).2.classes.containsName r.tgt = true := by
  intro r hr
  have hinv : RelEndpointsRegistered (runTokens ont ⟨[], []⟩ (p text)) := by
    apply runTokens_inv
    intro q hq
    cases hq
  exact hinv r hr

/-- C7 witness: a one-token passive-voice document emits an Association whose
endpoints are both present in the final registry. -/
theorem C7_witness :
    (ThesisUMLSystem.process errOntology ⟨some c7p, [], []⟩ "x").2.classes.containsName
        "Administrator" = true ∧
    (ThesisUMLSystem.process errOntology ⟨some c7p, [], []⟩ "x").2.classes.containsName
        "Account" = true :=
  C7_endpoints errOntology c7p [] [] "x"
    ⟨"Administrator", "Association", "Account", "manage"⟩ (by decide)

/-- C8: set(self.relationships) is a set-reduction — the deduplicated
collection is duplicate-free, keeps exactly the members of the original, and
holds each original tuple exactly once — and generate_graphviz emits exactly
one edge per deduplicated tuple, styled by kind: Generalization with hollow
triangle head and suppressed label, Composition with filled diamond tail, no
head and the multiplicity label, everything else with a vee head and the
label. -/
theorem C8_dedup_edges (classes : Registry) (relationships : List Rel) :
    relationships.dedup.Nodup ∧
    (∀ r : Rel, r ∈ relationships.dedup ↔ r ∈ relationships) ∧
    (∀ r ∈ relationships, relationships.dedup.count r = 1) ∧
    (generate_graphviz classes relationships).edges = relationships.dedup.map styleEdge ∧
    (∀ r : Rel, r.kind = "Generalization" →
      styleEdge r = ⟨r.src, r.tgt, "onormal", none, none, ""⟩) ∧
    (∀ r : Rel, r.kind = "Composition" →
      styleEdge r = ⟨r.src, r.tgt, "none", some "diamond", some "both", r.label⟩) ∧
    (∀ r : Rel, ¬ r.kind = "Generalization" → ¬ r.kind = "Composition" →
      styleEdge r = ⟨r.src, r.tgt, "vee", none, none, r.label⟩) := by
  refine ⟨relationships.nodup_dedup, fun r => List.mem_dedup, ?_, rfl, ?_, ?_, ?_⟩
  · intro r hr
    exact List.count_eq_one_of_mem relationships.nodup_dedup (List.mem_dedup.mpr hr)
  · intro r h
    unfold styleEdge
    rw [if_pos (by simp [h])]
  · intro r h
    unfold styleEdge
    rw [if_neg (by simp [h]), if_pos (by simp [h])]
  · intro r h1 h2
    unfold styleEdge
    rw [if_neg (by simp [h1]), if_neg (by simp [h2])]

/-- C8 witness: a duplicated Association tuple is kept exactly once after
deduplication. -/
theorem C8_witness :
    ([⟨"A", "Association", "B", "use"⟩,
      ⟨"A", "Association", "B", "use"⟩] : List Rel).dedup.count
        ⟨"A", "Association", "B", "use"⟩ = 1 :=
  (C8_dedup_edges []
    [⟨"A", "Association", "B", "use"⟩, ⟨"A", "Association", "B", "use"⟩]).2.2.1
    ⟨"A", "Association", "B", "use"⟩ (by decide)

/-- C9: process replaces the whole registry and relationship collection with
empty state on entry, so its result and final state do not depend on the
state the instance held before the call; and during one extraction pass a
registered class is never deleted (the registry only grows along the token
sequence). -/
theorem C9_reset_no_delete (ont : Ontology) (p : ParserModel) (c1 c2 : Registry)
    (r1 r2 : List Rel) (text : String) :
    ThesisUMLSystem.process ont ⟨some p, c1, r1⟩ text =
      ThesisUMLSystem.process ont ⟨some p, c2, r2⟩ text ∧
    ∀ (st0 : EngState) (d1 d2 : List Token) (n : String),
      (runTokens ont st0 d1).classes.containsName n = true →
      (runTokens ont st0 (d1 ++ d2)).classes.containsName n = true := by
  constructor
  · rfl
  · intro st0 d1 d2 n h
    unfold runTokens at h ⊢
    rw [List.foldl_append]
    exact runTokens_containsName_mono ont d2 h

/-- C9 witness: the class registered while processing the first token is still
present after processing an appended second token, applied at a concrete
document. -/
theorem C9_witness :
    (runTokens errOntology ⟨[], []⟩ ([c9tok] ++ [c9tok])).classes.containsName
      "Dog" = true :=
  (C9_reset_no_delete errOntology c9p [] [] [] [] "t").2 ⟨[], []⟩ [c9tok] [c9tok]
    "Dog" (by decide)

/-- C10: when the engine holds no parser model, process returns None at once
and leaves the classes registry and the relationship collection exactly as
they were — no reset, no extraction. -/
theorem C10_no_model (ont : Ontology) (sys : ThesisUMLSystem) (text : String)
    (h : sys.nlp = none) :
    ThesisUMLSystem.process ont sys text = (none, sys) := by
  unfold ThesisUMLSystem.process
  rw [h]

/-- C10 witness: a model-less engine with nonempty prior state returns None
and keeps that state. -/
theorem C10_witness :
    ThesisUMLSystem.process errOntology
        ⟨none, [("A", ⟨["x"], ["m"]⟩)], [⟨"A", "Association", "A", "m"⟩]⟩ "text" =
      (none, ⟨none, [("A", ⟨["x"], ["m"]⟩)], [⟨"A", "Association", "A", "m"⟩]⟩) :=
  C10_no_model errOntology
    ⟨none, [("A", ⟨["x"], ["m"]⟩)], [⟨"A", "Association", "A", "m"⟩]⟩ "text" rfl

end ThesisUML
